import Mathlib

/-!
# Verification of the titration chemistry core (`src/web/src/chem.ts`)

Shallow embedding of the three pure functions of `chem.ts` over the real
numbers: the closed-form weak-acid/strong-base pH solver
`computePHWeakAcidTitration`, the indicator color map `indicatorRgbFromPH`,
and the CSS color formatter `rgbToCss`.  JavaScript's `Math.log10` is
embedded as `Real.logb 10`, `Math.pow(10, x)` as the real power
`(10 : ℝ) ^ x`, `Math.sqrt` as `Real.sqrt`, `Math.min`/`Math.max` as
`min`/`max`, and `Math.round` as `⌊x + 1/2⌋` (round half towards +∞).
-/

noncomputable section

namespace Chem

/-- Embedding of `computePHWeakAcidTitration` from `src/web/src/chem.ts`.
Mirrors the source line by line: constants `Kw`, `Ka`, volume conversion to
liters, mole bookkeeping, the zero-total-volume guard, the three regime
branches (buffer / equivalence / excess base), and the final clamp. -/
def computePHWeakAcidTitration (Va_mL Ca Vb_mL Cb pKa : ℝ) : ℝ :=
  let Kw : ℝ := 1e-14
  let Ka : ℝ := (10 : ℝ) ^ (-pKa)
  let Va_L : ℝ := Va_mL / 1000
  let Vb_L : ℝ := Vb_mL / 1000
  let n_HA0 : ℝ := Ca * Va_L
  let n_OH : ℝ := Cb * Vb_L
  let Vtot : ℝ := Va_L + Vb_L
  if Vtot ≤ 0 then 7
  else
    let pH : ℝ :=
      if n_OH < n_HA0 - 1e-12 then
        -- buffer region
        let n_A : ℝ := max n_OH 1e-16
        let n_HA : ℝ := max (n_HA0 - n_OH) 1e-16
        let ratio : ℝ := n_A / n_HA
        pKa + Real.logb 10 ratio
      else if |n_OH - n_HA0| ≤ 1e-12 then
        -- equivalence: A- only, weak base
        let C_A : ℝ := n_HA0 / Vtot
        let Kb : ℝ := Kw / Ka
        let OH : ℝ := Real.sqrt (max (Kb * C_A) 1e-20)
        let pOH : ℝ := -Real.logb 10 OH
        14 - pOH
      else
        -- excess strong base
        let n_excess : ℝ := n_OH - n_HA0
        let OH : ℝ := max (n_excess / Vtot) 1e-20
        let pOH : ℝ := -Real.logb 10 OH
        14 - pOH
    min (max pH 0) 14

/-- Embedding of `indicatorRgbFromPH` from `src/web/src/chem.ts`: logistic
acid/base color mix with a triangular neutral-band overlay.  The returned
triple is `(R, G, B)`. -/
def indicatorRgbFromPH (pH : ℝ) (pKa_ind : ℝ := 7.0) (neutralBand : ℝ := 0.15) :
    ℝ × ℝ × ℝ :=
  let acid : ℝ × ℝ × ℝ := (1.0, 1.0, 0.0)
  let base : ℝ × ℝ × ℝ := (0.0, 0.0, 1.0)
  let neutral : ℝ × ℝ × ℝ := (0.0, 1.0, 0.0)
  -- fraction of base-colored form
  let f_base : ℝ := 1.0 / (1.0 + (10 : ℝ) ^ (pKa_ind - pH))
  let fb : ℝ := min (max f_base 0) 1
  let fa : ℝ := 1 - fb
  let baseMix : ℝ × ℝ × ℝ :=
    (fa * acid.1 + fb * base.1,
     fa * acid.2.1 + fb * base.2.1,
     fa * acid.2.2 + fb * base.2.2)
  let pHTarget : ℝ := 7.0
  let dist : ℝ := |pH - pHTarget|
  if neutralBand ≤ dist then baseMix
  else
    let w : ℝ := 1.0 - dist / neutralBand
    ((1 - w) * baseMix.1 + w * neutral.1,
     (1 - w) * baseMix.2.1 + w * neutral.2.1,
     (1 - w) * baseMix.2.2 + w * neutral.2.2)

/-- JavaScript `Math.round`: round half towards positive infinity. -/
def jsRound (x : ℝ) : ℤ := ⌊x + 1 / 2⌋

/-- Embedding of `rgbToCss` from `src/web/src/chem.ts`: scale each channel
by 255, round, and interpolate into a CSS `rgb(R, G, B)` string. -/
def rgbToCss (c : ℝ × ℝ × ℝ) : String :=
  let R : ℤ := jsRound (c.1 * 255)
  let G : ℤ := jsRound (c.2.1 * 255)
  let B : ℤ := jsRound (c.2.2 * 255)
  "rgb(" ++ toString R ++ ", " ++ toString G ++ ", " ++ toString B ++ ")"

/-! ## Branch characterizations of `computePHWeakAcidTitration` -/

/-- Clamp of the raw pH value to `[0, 14]`, as in the source's final
`Math.min(Math.max(pH, 0), 14)`. -/
def clampPH (x : ℝ) : ℝ := min (max x 0) 14

theorem clampPH_mono {x y : ℝ} (h : x ≤ y) : clampPH x ≤ clampPH y :=
  min_le_min (max_le_max h le_rfl) le_rfl

theorem clampPH_mem (x : ℝ) : clampPH x ∈ Set.Icc (0 : ℝ) 14 :=
  ⟨le_min (le_max_right x 0) (by norm_num), min_le_right _ _⟩

/-- In the buffer regime (`n_OH < n_HA0 − 1e-12`, positive total volume),
`computePHWeakAcidTitration` is the clamped Henderson–Hasselbalch value. -/
theorem computePH_eq_buffer (Va Ca Vb Cb pKa : ℝ)
    (hV : 0 < Va / 1000 + Vb / 1000)
    (hb : Cb * (Vb / 1000) < Ca * (Va / 1000) - 1e-12) :
    computePHWeakAcidTitration Va Ca Vb Cb pKa =
      clampPH (pKa + Real.logb 10
        (max (Cb * (Vb / 1000)) 1e-16 /
          max (Ca * (Va / 1000) - Cb * (Vb / 1000)) 1e-16)) := by
  unfold computePHWeakAcidTitration clampPH
  rw [if_neg (not_le.mpr hV), if_pos hb]

/-- In the equivalence regime (`|n_OH − n_HA0| ≤ 1e-12` and not buffer),
`computePHWeakAcidTitration` is the clamped hydrolysis value. -/
theorem computePH_eq_equiv (Va Ca Vb Cb pKa : ℝ)
    (hV : 0 < Va / 1000 + Vb / 1000)
    (hnb : ¬ Cb * (Vb / 1000) < Ca * (Va / 1000) - 1e-12)
    (he : |Cb * (Vb / 1000) - Ca * (Va / 1000)| ≤ 1e-12) :
    computePHWeakAcidTitration Va Ca Vb Cb pKa =
      clampPH (14 - -Real.logb 10 (Real.sqrt
        (max (1e-14 / (10 : ℝ) ^ (-pKa) * (Ca * (Va / 1000) / (Va / 1000 + Vb / 1000)))
          1e-20))) := by
  unfold computePHWeakAcidTitration clampPH
  rw [if_neg (not_le.mpr hV), if_neg hnb, if_pos he]

/-- In the excess-base regime (`n_OH − n_HA0 > 1e-12`),
`computePHWeakAcidTitration` is the clamped excess-hydroxide value. -/
theorem computePH_eq_excess (Va Ca Vb Cb pKa : ℝ)
    (hV : 0 < Va / 1000 + Vb / 1000)
    (hx : Ca * (Va / 1000) + 1e-12 < Cb * (Vb / 1000)) :
    computePHWeakAcidTitration Va Ca Vb Cb pKa =
      clampPH (14 - -Real.logb 10
        (max ((Cb * (Vb / 1000) - Ca * (Va / 1000)) / (Va / 1000 + Vb / 1000))
          1e-20)) := by
  unfold computePHWeakAcidTitration clampPH
  rw [if_neg (not_le.mpr hV), if_neg (by linarith), if_neg (by
    rw [abs_le, not_and_or]
    right
    simp only [not_le]
    linarith)]

/-! ## Numeric helper lemmas for `Real.logb 10` at integer powers of ten -/

theorem logb10_le_int {x : ℝ} (n : ℤ) (hx : 0 < x) (h : x ≤ (10 : ℝ) ^ n) :
    Real.logb 10 x ≤ (n : ℝ) := by
  rw [Real.logb_le_iff_le_rpow (by norm_num) hx, Real.rpow_intCast]
  exact h

theorem logb10_lt_int {x : ℝ} (n : ℤ) (hx : 0 < x) (h : x < (10 : ℝ) ^ n) :
    Real.logb 10 x < (n : ℝ) := by
  rw [Real.logb_lt_iff_lt_rpow (by norm_num) hx, Real.rpow_intCast]
  exact h

theorem int_le_logb10 {x : ℝ} (n : ℤ) (h : (10 : ℝ) ^ n ≤ x) :
    (n : ℝ) ≤ Real.logb 10 x := by
  have hx : 0 < x := lt_of_lt_of_le (by positivity) h
  rw [Real.le_logb_iff_rpow_le (by norm_num) hx, Real.rpow_intCast]
  exact h

theorem int_lt_logb10 {x : ℝ} (n : ℤ) (h : (10 : ℝ) ^ n < x) :
    (n : ℝ) < Real.logb 10 x := by
  have hx : 0 < x := lt_trans (by positivity) h
  rw [Real.lt_logb_iff_rpow_lt (by norm_num) hx, Real.rpow_intCast]
  exact h

/-! ## Channel decomposition of the indicator color -/

/-- The clamped logistic base-form fraction used by `indicatorRgbFromPH`
(at the default `pKa_ind = 7.0`). -/
def fbFun (pH : ℝ) : ℝ := min (max (1.0 / (1.0 + (10 : ℝ) ^ ((7.0 : ℝ) - pH))) 0) 1

/-- The triangular-window mix weight of the neutral overlay, expressed as
the weight of `baseMix` (at the defaults `pKa_ind = 7.0`,
`neutralBand = 0.15`): `1` outside the band, `|pH − 7|/0.15` inside. -/
def mFun (pH : ℝ) : ℝ := min (|pH - 7.0| / 0.15) 1

theorem fbFun_nonneg (pH : ℝ) : 0 ≤ fbFun pH :=
  le_min (le_max_right _ 0) zero_le_one

theorem fbFun_le_one (pH : ℝ) : fbFun pH ≤ 1 := min_le_right _ 1

theorem mFun_nonneg (pH : ℝ) : 0 ≤ mFun pH :=
  le_min (by positivity) zero_le_one

theorem mFun_le_one (pH : ℝ) : mFun pH ≤ 1 := min_le_right _ 1

/-- Each output channel of the default indicator map is a product form in
the mix weight `mFun` and the clamped logistic `fbFun`:
`R = m·(1−fb)`, `G = 1 − m·fb`, `B = m·fb`. -/
theorem indicator_decomp (pH : ℝ) :
    indicatorRgbFromPH pH =
      (mFun pH * (1 - fbFun pH), 1 - mFun pH * fbFun pH, mFun pH * fbFun pH) := by
  unfold indicatorRgbFromPH fbFun mFun
  rcases le_or_lt (0.15 : ℝ) |pH - 7.0| with h | h
  · rw [if_pos h]
    have hm : min (|pH - 7.0| / 0.15) 1 = 1 :=
      min_eq_right ((le_div_iff₀ (by norm_num)).mpr (by linarith))
    rw [hm]
    simp only [Prod.mk.injEq]
    refine ⟨by ring, by ring, by ring⟩
  · rw [if_neg (not_le.mpr h)]
    have hm : min (|pH - 7.0| / 0.15) 1 = |pH - 7.0| / 0.15 :=
      min_eq_left ((div_le_one (by norm_num)).mpr (le_of_lt h))
    rw [hm]
    simp only [Prod.mk.injEq]
    refine ⟨by ring, by ring, by ring⟩

/-- C7: for every real pH input, each channel of the default indicator
color lies in the closed interval `[0, 1]`. -/
theorem colorFromPH_range (pH : ℝ) :
    (indicatorRgbFromPH pH).1 ∈ Set.Icc (0 : ℝ) 1 ∧
    (indicatorRgbFromPH pH).2.1 ∈ Set.Icc (0 : ℝ) 1 ∧
    (indicatorRgbFromPH pH).2.2 ∈ Set.Icc (0 : ℝ) 1 := by
  rw [indicator_decomp]
  dsimp only
  have hfb0 := fbFun_nonneg pH
  have hfb1 := fbFun_le_one pH
  have hm0 := mFun_nonneg pH
  have hm1 := mFun_le_one pH
  have hB0 : 0 ≤ mFun pH * fbFun pH := mul_nonneg hm0 hfb0
  have hB1 : mFun pH * fbFun pH ≤ 1 := mul_le_one₀ hm1 hfb0 hfb1
  refine ⟨⟨mul_nonneg hm0 (by linarith), ?_⟩, ⟨by linarith, by linarith⟩, hB0, hB1⟩
  calc mFun pH * (1 - fbFun pH) ≤ 1 * 1 :=
        mul_le_mul hm1 (by linarith) (by linarith) zero_le_one
    _ = 1 := one_mul 1

/-- C8: at the band center `pH = 7.0` the default indicator color is
exactly pure green `(0, 1, 0)`. -/
theorem colorFromPH_at_center : indicatorRgbFromPH 7.0 = (0, 1, 0) := by
  rw [indicator_decomp]
  have hm : mFun 7.0 = 0 := by
    unfold mFun
    rw [sub_self, abs_zero, zero_div]
    exact min_eq_left zero_le_one
  rw [hm]
  norm_num

/-! ## The §4.1 reference definition and refinement (C1) -/

/-- Reference definition written from the words of spec §4.1 / claim C1:
three regimes selected by comparing `n_OH` with `n_HA0` at tolerance
`1e-12`, a `7.0` guard at zero total volume, and a final clamp to
`[0, 14]`.  (The third regime's guard `n_OH > n_HA0 + τ` is the complement
of the first two, so it is the trailing `else`.) -/
def computePH_spec41 (Va Ca Vb Cb pKa : ℝ) : ℝ :=
  let Va_L : ℝ := Va / 1000
  let Vb_L : ℝ := Vb / 1000
  let n_HA0 : ℝ := Ca * Va_L
  let n_OH : ℝ := Cb * Vb_L
  let Vtot : ℝ := Va_L + Vb_L
  if Vtot ≤ 0 then 7
  else
    clampPH
      (if n_OH < n_HA0 - 1e-12 then
        pKa + Real.logb 10 (max n_OH 1e-16 / max (n_HA0 - n_OH) 1e-16)
      else if |n_OH - n_HA0| ≤ 1e-12 then
        14 + Real.logb 10 (Real.sqrt (max (1e-14 / (10 : ℝ) ^ (-pKa) * (n_HA0 / Vtot)) 1e-20))
      else
        14 + Real.logb 10 (max ((n_OH - n_HA0) / Vtot) 1e-20))

/-- C1: on the claimed domain (`Va, Ca, Cb > 0`, `Vb ≥ 0`) the source
function `computePHWeakAcidTitration` coincides with the three-regime
reference definition of spec §4.1. -/
theorem computePH_matches_spec (Va Ca Vb Cb pKa : ℝ)
    (hVa : 0 < Va) (hCa : 0 < Ca) (hCb : 0 < Cb) (hVb : 0 ≤ Vb) :
    computePHWeakAcidTitration Va Ca Vb Cb pKa = computePH_spec41 Va Ca Vb Cb pKa := by
  unfold computePHWeakAcidTitration computePH_spec41 clampPH
  dsimp only
  split_ifs with h1 h2 h3
  · rfl
  · rfl
  · rw [sub_neg_eq_add]
  · rw [sub_neg_eq_add]

/-- C1 witness: the refinement theorem instantiated at a concrete valid
configuration. -/
theorem computePH_matches_spec_witness :
    computePHWeakAcidTitration 50 0.1 25 0.1 4.76 = computePH_spec41 50 0.1 25 0.1 4.76 :=
  computePH_matches_spec 50 0.1 25 0.1 4.76 (by norm_num) (by norm_num) (by norm_num)
    (by norm_num)

/-! ## Totality and output range (C2) -/

/-- C2: for all valid configurations the pH solver is total (it is a plain
function of its five real arguments, defined by branching and arithmetic
only) and its result lies in `[0, 14]`. -/
theorem computePH_total_range (Va Ca Vb Cb pKa : ℝ)
    (hVa : 0 < Va) (hCa : 0 < Ca) (hCb : 0 < Cb) (hVb : 0 ≤ Vb) :
    computePHWeakAcidTitration Va Ca Vb Cb pKa ∈ Set.Icc (0 : ℝ) 14 := by
  unfold computePHWeakAcidTitration
  dsimp only
  split_ifs with h1 h2 h3
  · exact ⟨by norm_num, by norm_num⟩
  · exact clampPH_mem _
  · exact clampPH_mem _
  · exact clampPH_mem _

/-- C2 witness: the range theorem instantiated at a concrete valid
configuration. -/
theorem computePH_total_range_witness :
    computePHWeakAcidTitration 50 0.1 10 0.1 4.76 ∈ Set.Icc (0 : ℝ) 14 :=
  computePH_total_range 50 0.1 10 0.1 4.76 (by norm_num) (by norm_num) (by norm_num)
    (by norm_num)

/-! ## Determinism and statelessness (C9) -/

/-- C9: `computePHWeakAcidTitration` and `indicatorRgbFromPH` are embedded
as pure functions of their arguments alone (no ambient state appears in
either definition), so two calls with pairwise equal arguments return
equal results. -/
theorem chem_deterministic (Va Ca Vb Cb pKa Va' Ca' Vb' Cb' pKa' p k nb p' k' nb' : ℝ)
    (h1 : Va = Va') (h2 : Ca = Ca') (h3 : Vb = Vb') (h4 : Cb = Cb') (h5 : pKa = pKa')
    (h6 : p = p') (h7 : k = k') (h8 : nb = nb') :
    computePHWeakAcidTitration Va Ca Vb Cb pKa =
      computePHWeakAcidTitration Va' Ca' Vb' Cb' pKa' ∧
    indicatorRgbFromPH p k nb = indicatorRgbFromPH p' k' nb' := by
  subst h1 h2 h3 h4 h5 h6 h7 h8
  exact ⟨rfl, rfl⟩

/-- C9 witness: determinism instantiated at concrete equal argument
lists. -/
theorem chem_deterministic_witness :
    computePHWeakAcidTitration 50 0.1 25 0.1 4.76 =
      computePHWeakAcidTitration 50 0.1 25 0.1 4.76 ∧
    indicatorRgbFromPH 6.5 7.0 0.15 = indicatorRgbFromPH 6.5 7.0 0.15 :=
  chem_deterministic 50 0.1 25 0.1 4.76 50 0.1 25 0.1 4.76 6.5 7.0 0.15 6.5 7.0 0.15
    rfl rfl rfl rfl rfl rfl rfl rfl

/-! ## Further clamp helpers -/

theorem clampPH_of_nonpos {x : ℝ} (h : x ≤ 0) : clampPH x = 0 := by
  unfold clampPH
  rw [max_eq_right h]
  exact min_eq_left (by norm_num)

theorem clampPH_lt {x c : ℝ} (hc : 0 < c) (h : x < c) : clampPH x < c :=
  lt_of_le_of_lt (min_le_left _ _) (max_lt h hc)

theorem lt_clampPH {x c : ℝ} (hc : c < 14) (h : c < x) : c < clampPH x :=
  lt_min (lt_of_lt_of_le h (le_max_left _ _)) hc

/-! ## Initial pH at `Vb = 0` (C4) -/

/-- C4 (code bug evidence): at the repository's own example configuration
`Va = 50, Ca = 0.1, Vb = 0, Cb = 0.1, pKa = 4.76` the source function
returns exactly `0`, while the weak-acid limiting form
`−log10(√(Ka·Ca))` that the spec (and the repository's chemistry
documentation) promise equals exactly `2.88`.  The buffer branch floors
`n_A` at `1e-16`, giving `pKa + log10(1e-16/n_HA0) ≈ −8.94`, which the
final clamp cuts to `0` — not the weak-acid value. -/
theorem computePH_at_Vb_zero_bug :
    computePHWeakAcidTitration 50 0.1 0 0.1 4.76 = 0 ∧
    -Real.logb 10 (Real.sqrt ((10 : ℝ) ^ (-(4.76 : ℝ)) * 0.1)) = 2.88 := by
  constructor
  · rw [computePH_eq_buffer 50 0.1 0 0.1 4.76 (by norm_num) (by norm_num)]
    have e1 : max ((0.1 : ℝ) * (0 / 1000)) 1e-16 = 1e-16 := by
      rw [max_eq_right] <;> norm_num
    have e2 : max ((0.1 : ℝ) * (50 / 1000) - 0.1 * (0 / 1000)) 1e-16 = 0.005 := by
      rw [max_eq_left] <;> norm_num
    rw [e1, e2]
    apply clampPH_of_nonpos
    have hlog : Real.logb 10 ((1e-16 : ℝ) / 0.005) ≤ ((-5 : ℤ) : ℝ) :=
      logb10_le_int (-5) (by norm_num) (by norm_num)
    norm_num at hlog ⊢
    linarith
  · have h01 : (0.1 : ℝ) = (10 : ℝ) ^ (-(1 : ℝ)) := by
      rw [Real.rpow_neg (by norm_num : (0 : ℝ) ≤ 10), Real.rpow_one]
      norm_num
    have h2 : (10 : ℝ) ^ (-(4.76 : ℝ)) * 0.1 = (10 : ℝ) ^ (-(5.76 : ℝ)) := by
      rw [h01, ← Real.rpow_add (by norm_num : (0 : ℝ) < 10)]
      norm_num
    have h3 : Real.sqrt ((10 : ℝ) ^ (-(5.76 : ℝ))) = (10 : ℝ) ^ (-(2.88 : ℝ)) := by
      rw [Real.sqrt_eq_rpow, ← Real.rpow_mul (by norm_num : (0 : ℝ) ≤ 10)]
      norm_num
    rw [h2, h3, Real.logb_rpow (by norm_num) (by norm_num)]
    norm_num

/-! ## pH at the equivalence volume (C5) -/

/-- C5 counterexample: `pKa = 0 < 7` is a valid acid exponent, `Vb = 50`
is exactly the equivalence volume `Ca·Va/Cb` for
`Va = 50, Ca = 0.1, Cb = 0.1`, yet the computed equivalence pH is
strictly below `7` (the `√(Kb·C_A)` hydrolysis value is
`14 + log10(√5e-16) ≈ 6.35`). -/
theorem computePH_equivalence_counterexample :
    (0 : ℝ) < 7 ∧ (50 : ℝ) = 0.1 * 50 / 0.1 ∧
    computePHWeakAcidTitration 50 0.1 50 0.1 0 < 7 := by
  refine ⟨by norm_num, by norm_num, ?_⟩
  rw [computePH_eq_equiv 50 0.1 50 0.1 0 (by norm_num) (by norm_num) (by norm_num)]
  have e0 : (1e-14 : ℝ) / (10 : ℝ) ^ (-(0 : ℝ)) * (0.1 * (50 / 1000) / (50 / 1000 + 50 / 1000)) =
      5e-16 := by
    rw [neg_zero, Real.rpow_zero]
    norm_num
  have e1 : max ((1e-14 : ℝ) / (10 : ℝ) ^ (-(0 : ℝ)) *
      (0.1 * (50 / 1000) / (50 / 1000 + 50 / 1000))) 1e-20 = 5e-16 := by
    rw [e0, max_eq_left] <;> norm_num
  rw [e1, sub_neg_eq_add]
  apply clampPH_lt (by norm_num)
  have hs : Real.sqrt (5e-16 : ℝ) < (10 : ℝ) ^ (-7 : ℤ) := by
    rw [Real.sqrt_lt' (by norm_num)]
    norm_num
  have hlog : Real.logb 10 (Real.sqrt (5e-16 : ℝ)) < ((-7 : ℤ) : ℝ) :=
    logb10_lt_int (-7) (Real.sqrt_pos.mpr (by norm_num)) hs
  push_cast at hlog
  linarith

/-- C5 amended: at the exact equivalence volume `Vb = Ca·Va/Cb` the
computed pH is strictly greater than `7.0` whenever the conjugate-base
concentration `C_A = n_HA0/Vtot` exceeds `Ka = 10^(−pKa)` (so that
`Kb·C_A > Kw`); this covers every ordinary weak acid such as the spec's
example `pKa = 4.76`, but not every `pKa < 7`. -/
theorem computePH_equivalence_basic (Va Ca Cb pKa : ℝ)
    (hVa : 0 < Va) (hCa : 0 < Ca) (hCb : 0 < Cb)
    (hKa : (10 : ℝ) ^ (-pKa) < Ca * (Va / 1000) / (Va / 1000 + Ca * Va / Cb / 1000)) :
    7 < computePHWeakAcidTitration Va Ca (Ca * Va / Cb) Cb pKa := by
  have hOH : Cb * (Ca * Va / Cb / 1000) = Ca * (Va / 1000) := by
    field_simp
    ring
  have hVeq : 0 ≤ Ca * Va / Cb := le_of_lt (by positivity)
  have hV : 0 < Va / 1000 + Ca * Va / Cb / 1000 := by positivity
  rw [computePH_eq_equiv Va Ca (Ca * Va / Cb) Cb pKa hV
    (by rw [hOH]; exact not_lt.mpr (by linarith))
    (by rw [hOH, sub_self, abs_zero]; norm_num)]
  have hKapos : (0 : ℝ) < (10 : ℝ) ^ (-pKa) := Real.rpow_pos_of_pos (by norm_num) _
  set CA : ℝ := Ca * (Va / 1000) / (Va / 1000 + Ca * Va / Cb / 1000) with hCA
  have hKbCA : (1e-14 : ℝ) < 1e-14 / (10 : ℝ) ^ (-pKa) * CA := by
    have hratio : 1 < CA / (10 : ℝ) ^ (-pKa) := (one_lt_div hKapos).mpr hKa
    have heq : (1e-14 : ℝ) / (10 : ℝ) ^ (-pKa) * CA = 1e-14 * (CA / (10 : ℝ) ^ (-pKa)) := by
      ring
    rw [heq]
    nlinarith
  have hmax : max ((1e-14 : ℝ) / (10 : ℝ) ^ (-pKa) * CA) 1e-20 =
      1e-14 / (10 : ℝ) ^ (-pKa) * CA :=
    max_eq_left (by linarith)
  rw [hmax, sub_neg_eq_add]
  apply lt_clampPH (by norm_num)
  have hs : (10 : ℝ) ^ (-7 : ℤ) < Real.sqrt (1e-14 / (10 : ℝ) ^ (-pKa) * CA) := by
    rw [show ((10 : ℝ) ^ (-7 : ℤ)) = (1e-7 : ℝ) by norm_num]
    rw [Real.lt_sqrt (by norm_num)]
    nlinarith
  have hlog : ((-7 : ℤ) : ℝ) < Real.logb 10 (Real.sqrt (1e-14 / (10 : ℝ) ^ (-pKa) * CA)) :=
    int_lt_logb10 (-7) hs
  push_cast at hlog
  linarith

/-- C5 amended witness: the spec's own example `Va = 50, Ca = 0.1,
Cb = 0.1, pKa = 4.76` satisfies `Ka < C_A`, so the equivalence pH exceeds
`7`. -/
theorem computePH_equivalence_basic_witness :
    7 < computePHWeakAcidTitration 50 0.1 (0.1 * 50 / 0.1) 0.1 4.76 := by
  apply computePH_equivalence_basic 50 0.1 0.1 4.76 (by norm_num) (by norm_num) (by norm_num)
  have h1 : (10 : ℝ) ^ (-(4.76 : ℝ)) ≤ (10 : ℝ) ^ (((-2 : ℤ) : ℝ)) :=
    Real.rpow_le_rpow_of_exponent_le (by norm_num) (by norm_num)
  rw [Real.rpow_intCast] at h1
  have h2 : (0.1 : ℝ) * (50 / 1000) / (50 / 1000 + 0.1 * 50 / 0.1 / 1000) = 0.05 := by
    norm_num
  rw [h2]
  have h3 : ((10 : ℝ) ^ (-2 : ℤ)) = 0.01 := by norm_num
  rw [h3] at h1
  linarith

/-! ## Monotonicity in `Vb` (C3) -/

/-- C3 counterexample: `computePHWeakAcidTitration` is not monotone
non-decreasing in `Vb`.  With `Va = 1000, Ca = 1, Cb = 1, pKa = 0`, just
below the equivalence point (`Vb = 1000 − 2e-9`, so
`n_HA0 − n_OH = 2e-12`) the buffer branch yields a pH above `10`, while
just above it (`Vb = 1000 + 4e-9`, so `n_excess = 4e-12`) the excess
branch yields `[OH⁻] ≈ 2e-12` and a pH below `7`: adding base lowers the
computed pH across the regime boundary. -/
theorem computePH_not_monotone :
    (1000 - 2e-9 : ℝ) ≤ 1000 + 4e-9 ∧
    computePHWeakAcidTitration 1000 1 (1000 + 4e-9) 1 0 <
      computePHWeakAcidTitration 1000 1 (1000 - 2e-9) 1 0 := by
  refine ⟨by norm_num, ?_⟩
  have h2 : computePHWeakAcidTitration 1000 1 (1000 + 4e-9) 1 0 < 7 := by
    rw [computePH_eq_excess 1000 1 (1000 + 4e-9) 1 0 (by norm_num) (by norm_num)]
    rw [max_eq_left (by norm_num), sub_neg_eq_add]
    apply clampPH_lt (by norm_num)
    have hlog : Real.logb 10
        (((1 : ℝ) * ((1000 + 4e-9) / 1000) - 1 * (1000 / 1000)) /
          (1000 / 1000 + (1000 + 4e-9) / 1000)) ≤ ((-11 : ℤ) : ℝ) :=
      logb10_le_int (-11) (by norm_num) (by norm_num)
    push_cast at hlog
    linarith
  have h1 : 7 < computePHWeakAcidTitration 1000 1 (1000 - 2e-9) 1 0 := by
    rw [computePH_eq_buffer 1000 1 (1000 - 2e-9) 1 0 (by norm_num) (by norm_num)]
    have e1 : max ((1 : ℝ) * ((1000 - 2e-9) / 1000)) 1e-16 =
        (1 : ℝ) * ((1000 - 2e-9) / 1000) := max_eq_left (by norm_num)
    have e2 : max ((1 : ℝ) * (1000 / 1000) - 1 * ((1000 - 2e-9) / 1000)) 1e-16 = 2e-12 := by
      rw [max_eq_left] <;> norm_num
    rw [e1, e2]
    apply lt_clampPH (by norm_num)
    have hlog : ((10 : ℤ) : ℝ) ≤
        Real.logb 10 ((1 : ℝ) * ((1000 - 2e-9) / 1000) / 2e-12) :=
      int_le_logb10 10 (by norm_num)
    push_cast at hlog
    linarith
  exact lt_trans h2 h1

/-- C3 amended: `Vb ↦ computePH` is monotone non-decreasing as long as
both volumes select the same outer regime — both in the buffer regime
(`n_OH < n_HA0 − τ`), or both in the excess-base regime
(`n_OH > n_HA0 + τ`).  Monotonicity across the equivalence boundary fails
(see the counterexample). -/
theorem computePH_mono_within_regime (Va Ca Cb pKa Vb1 Vb2 : ℝ)
    (hVa : 0 < Va) (hCa : 0 < Ca) (hCb : 0 < Cb)
    (hVb1 : 0 ≤ Vb1) (h12 : Vb1 ≤ Vb2) :
    (Cb * (Vb2 / 1000) < Ca * (Va / 1000) - 1e-12 →
      computePHWeakAcidTitration Va Ca Vb1 Cb pKa ≤
        computePHWeakAcidTitration Va Ca Vb2 Cb pKa) ∧
    (Ca * (Va / 1000) + 1e-12 < Cb * (Vb1 / 1000) →
      computePHWeakAcidTitration Va Ca Vb1 Cb pKa ≤
        computePHWeakAcidTitration Va Ca Vb2 Cb pKa) := by
  have hOH12 : Cb * (Vb1 / 1000) ≤ Cb * (Vb2 / 1000) :=
    mul_le_mul_of_nonneg_left (by linarith) hCb.le
  have hV1 : 0 < Va / 1000 + Vb1 / 1000 :=
    add_pos_of_pos_of_nonneg (div_pos hVa (by norm_num)) (div_nonneg hVb1 (by norm_num))
  have hV2 : 0 < Va / 1000 + Vb2 / 1000 :=
    add_pos_of_pos_of_nonneg (div_pos hVa (by norm_num))
      (div_nonneg (le_trans hVb1 h12) (by norm_num))
  constructor
  · intro hbuf2
    have hbuf1 : Cb * (Vb1 / 1000) < Ca * (Va / 1000) - 1e-12 := lt_of_le_of_lt hOH12 hbuf2
    rw [computePH_eq_buffer Va Ca Vb1 Cb pKa hV1 hbuf1,
      computePH_eq_buffer Va Ca Vb2 Cb pKa hV2 hbuf2]
    apply clampPH_mono
    apply add_le_add_left
    apply Real.logb_le_logb_of_le (by norm_num)
    · exact div_pos (lt_of_lt_of_le (by norm_num) (le_max_right _ _))
        (lt_of_lt_of_le (by norm_num) (le_max_right _ _))
    · exact div_le_div (le_trans (by norm_num) (le_max_right _ _))
        (max_le_max hOH12 le_rfl)
        (lt_of_lt_of_le (by norm_num) (le_max_right _ _))
        (max_le_max (by linarith) le_rfl)
  · intro hex1
    have hex2 : Ca * (Va / 1000) + 1e-12 < Cb * (Vb2 / 1000) := lt_of_lt_of_le hex1 hOH12
    rw [computePH_eq_excess Va Ca Vb1 Cb pKa hV1 hex1,
      computePH_eq_excess Va Ca Vb2 Cb pKa hV2 hex2]
    apply clampPH_mono
    have key : Real.logb 10
        (max ((Cb * (Vb1 / 1000) - Ca * (Va / 1000)) / (Va / 1000 + Vb1 / 1000)) 1e-20) ≤
        Real.logb 10
          (max ((Cb * (Vb2 / 1000) - Ca * (Va / 1000)) / (Va / 1000 + Vb2 / 1000)) 1e-20) := by
      apply Real.logb_le_logb_of_le (by norm_num)
        (lt_of_lt_of_le (by norm_num) (le_max_right _ _))
      apply max_le_max _ le_rfl
      rw [div_le_div_iff hV1 hV2]
      nlinarith [mul_nonneg (by linarith : (0 : ℝ) ≤ Vb2 / 1000 - Vb1 / 1000)
        (add_nonneg (mul_nonneg hCb.le (div_nonneg hVa.le (by norm_num : (0 : ℝ) ≤ 1000)))
          (mul_nonneg hCa.le (div_nonneg hVa.le (by norm_num : (0 : ℝ) ≤ 1000))))]
    linarith

/-- C3 amended witness: within-regime monotonicity at the spec's example
configuration with `Vb1 = 10, Vb2 = 20` (both in the buffer regime). -/
theorem computePH_mono_within_regime_witness :
    ((0.1 : ℝ) * (20 / 1000) < 0.1 * (50 / 1000) - 1e-12 →
      computePHWeakAcidTitration 50 0.1 10 0.1 4.76 ≤
        computePHWeakAcidTitration 50 0.1 20 0.1 4.76) ∧
    ((0.1 : ℝ) * (50 / 1000) + 1e-12 < 0.1 * (10 / 1000) →
      computePHWeakAcidTitration 50 0.1 10 0.1 4.76 ≤
        computePHWeakAcidTitration 50 0.1 20 0.1 4.76) :=
  computePH_mono_within_regime 50 0.1 0.1 4.76 10 20 (by norm_num) (by norm_num)
    (by norm_num) (by norm_num) (by norm_num)

/-! ## Continuity of the indicator color (C6) -/

/-- The unclamped logistic base-form fraction at the default
`pKa_ind = 7.0`. -/
def logisticFun (pH : ℝ) : ℝ := 1.0 / (1.0 + (10 : ℝ) ^ ((7.0 : ℝ) - pH))

theorem logisticFun_pos (p : ℝ) : 0 < logisticFun p := by
  unfold logisticFun
  have h : (0 : ℝ) < (10 : ℝ) ^ ((7.0 : ℝ) - p) := Real.rpow_pos_of_pos (by norm_num) _
  positivity

theorem logisticFun_le_one (p : ℝ) : logisticFun p ≤ 1 := by
  unfold logisticFun
  rw [div_le_one (by positivity)]
  have h : (0 : ℝ) < (10 : ℝ) ^ ((7.0 : ℝ) - p) := Real.rpow_pos_of_pos (by norm_num) _
  linarith

/-- The clamp in the source is inert: the logistic fraction is already
in `[0, 1]`. -/
theorem fbFun_eq_logistic (p : ℝ) : fbFun p = logisticFun p := by
  have h : fbFun p = min (max (logisticFun p) 0) 1 := rfl
  rw [h, max_eq_left (logisticFun_pos p).le, min_eq_left (logisticFun_le_one p)]

theorem logisticFun_mono {x y : ℝ} (h : x ≤ y) : logisticFun x ≤ logisticFun y := by
  unfold logisticFun
  have hu : (0 : ℝ) < (10 : ℝ) ^ ((7.0 : ℝ) - y) := Real.rpow_pos_of_pos (by norm_num) _
  have huv : (10 : ℝ) ^ ((7.0 : ℝ) - y) ≤ (10 : ℝ) ^ ((7.0 : ℝ) - x) :=
    Real.rpow_le_rpow_of_exponent_le (by norm_num) (by linarith)
  apply div_le_div_of_nonneg_left (by norm_num) (by linarith) (by linarith)

/-- Mean-value-free Lipschitz estimate for the logistic: the increment is
bounded by `log 10` times the increment of the argument. -/
theorem logisticFun_lip {x y : ℝ} (h : x ≤ y) :
    logisticFun y - logisticFun x ≤ Real.log 10 * (y - x) := by
  set u : ℝ := (10 : ℝ) ^ ((7.0 : ℝ) - y) with hu_def
  set v : ℝ := (10 : ℝ) ^ ((7.0 : ℝ) - x) with hv_def
  have hu : 0 < u := Real.rpow_pos_of_pos (by norm_num) _
  have hv : 0 < v := Real.rpow_pos_of_pos (by norm_num) _
  have huv : u ≤ v := Real.rpow_le_rpow_of_exponent_le (by norm_num) (by linarith)
  have hdiff : logisticFun y - logisticFun x = (v - u) / ((1 + u) * (1 + v)) := by
    unfold logisticFun
    rw [← hu_def, ← hv_def]
    field_simp
    ring
  have hstep1 : (v - u) / ((1 + u) * (1 + v)) ≤ (v - u) / v :=
    div_le_div (by linarith) le_rfl hv (by nlinarith)
  have hstep2 : (v - u) / v ≤ Real.log v - Real.log u := by
    have hlog : Real.log (u / v) ≤ u / v - 1 := Real.log_le_sub_one_of_pos (by positivity)
    rw [Real.log_div hu.ne' hv.ne'] at hlog
    have huv' : u / v - 1 = (u - v) / v := by field_simp
    rw [huv'] at hlog
    have : (v - u) / v = -((u - v) / v) := by ring
    rw [this]
    linarith
  have hstep3 : Real.log v - Real.log u = Real.log 10 * (y - x) := by
    rw [hu_def, hv_def, Real.log_rpow (by norm_num), Real.log_rpow (by norm_num)]
    ring
  rw [hdiff]
  linarith

/-- Two-sided Lipschitz bound for the clamped logistic fraction. -/
theorem fbFun_lip (x y : ℝ) : |fbFun x - fbFun y| ≤ Real.log 10 * |x - y| := by
  rw [fbFun_eq_logistic, fbFun_eq_logistic]
  rcases le_total x y with h | h
  · rw [abs_sub_comm, abs_of_nonneg (sub_nonneg.mpr (logisticFun_mono h)),
      abs_sub_comm x y, abs_of_nonneg (sub_nonneg.mpr h)]
    exact logisticFun_lip h
  · rw [abs_of_nonneg (sub_nonneg.mpr (logisticFun_mono h)),
      abs_of_nonneg (sub_nonneg.mpr h)]
    exact logisticFun_lip h

/-- `min · 1` is 1-Lipschitz. -/
theorem abs_min_one_sub_min_one (s t : ℝ) : |min s 1 - min t 1| ≤ |s - t| := by
  have h1 : s - t ≤ |s - t| := le_abs_self _
  have h2 : -|s - t| ≤ s - t := neg_abs_le _
  have h0 : 0 ≤ |s - t| := abs_nonneg _
  rcases le_total s 1 with hs | hs <;> rcases le_total t 1 with ht | ht
  · rw [min_eq_left hs, min_eq_left ht]
  · rw [min_eq_left hs, min_eq_right ht, abs_sub_le_iff]
    constructor <;> linarith
  · rw [min_eq_right hs, min_eq_left ht, abs_sub_le_iff]
    constructor <;> linarith
  · rw [min_eq_right hs, min_eq_right ht, abs_sub_le_iff]
    constructor <;> linarith

/-- The triangular-window weight is `20/3`-Lipschitz
(slope `1/0.15`). -/
theorem mFun_lip (x y : ℝ) : |mFun x - mFun y| ≤ 20 / 3 * |x - y| := by
  unfold mFun
  calc |min (|x - 7.0| / 0.15) 1 - min (|y - 7.0| / 0.15) 1|
      ≤ abs (|x - 7.0| / 0.15 - |y - 7.0| / 0.15) := abs_min_one_sub_min_one _ _
    _ = abs (|x - 7.0| - |y - 7.0|) / 0.15 := by
        rw [div_sub_div_same, abs_div, abs_of_pos (by norm_num : (0 : ℝ) < 0.15)]
    _ ≤ |x - y| / 0.15 := by
        apply div_le_div_of_nonneg_right ?_ (by norm_num)
        calc abs (|x - 7.0| - |y - 7.0|) ≤ |x - 7.0 - (y - 7.0)| :=
              abs_abs_sub_abs_le_abs_sub _ _
          _ = |x - y| := by ring_nf
    _ = 20 / 3 * |x - y| := by ring

/-- Product increment bound for factors bounded by one in absolute
value. -/
theorem mul_diff_le {a b a' b' : ℝ} (ha : |a| ≤ 1) (hb' : |b'| ≤ 1) :
    |a * b - a' * b'| ≤ |b - b'| + |a - a'| := by
  have hsplit : a * b - a' * b' = a * (b - b') + (a - a') * b' := by ring
  rw [hsplit]
  calc |a * (b - b') + (a - a') * b'| ≤ |a * (b - b')| + |(a - a') * b'| := abs_add _ _
    _ = |a| * |b - b'| + |a - a'| * |b'| := by rw [abs_mul, abs_mul]
    _ ≤ 1 * |b - b'| + |a - a'| * 1 :=
        add_le_add (mul_le_mul_of_nonneg_right ha (abs_nonneg _))
          (mul_le_mul_of_nonneg_left hb' (abs_nonneg _))
    _ = |b - b'| + |a - a'| := by ring

theorem abs_mFun_le_one (p : ℝ) : |mFun p| ≤ 1 :=
  abs_le.mpr ⟨by linarith [mFun_nonneg p], mFun_le_one p⟩

theorem abs_one_sub_fbFun_le_one (p : ℝ) : |1 - fbFun p| ≤ 1 :=
  abs_le.mpr ⟨by linarith [fbFun_le_one p], by linarith [fbFun_nonneg p]⟩

theorem abs_fbFun_le_one (p : ℝ) : |fbFun p| ≤ 1 :=
  abs_le.mpr ⟨by linarith [fbFun_nonneg p], fbFun_le_one p⟩

/-- C6: the default indicator map is (uniformly) continuous in pH: for
every `ε > 0` the choice `δ = ε/16` guarantees that inputs closer than
`δ` give colors whose three channels each differ by less than `ε`
(the map is Lipschitz with constant `log 10 + 20/3 < 16`; in particular
there is no jump at the band edge `|pH − 7| = 0.15`). -/
theorem colorFromPH_continuous :
    ∀ ε : ℝ, 0 < ε → ∃ δ : ℝ, 0 < δ ∧ ∀ x y : ℝ, |x - y| < δ →
      |(indicatorRgbFromPH x).1 - (indicatorRgbFromPH y).1| < ε ∧
      |(indicatorRgbFromPH x).2.1 - (indicatorRgbFromPH y).2.1| < ε ∧
      |(indicatorRgbFromPH x).2.2 - (indicatorRgbFromPH y).2.2| < ε := by
  intro ε hε
  refine ⟨ε / 16, by positivity, fun x y hxy => ?_⟩
  have hlog9 : Real.log 10 ≤ 9 := by
    have h := Real.log_le_sub_one_of_pos (show (0 : ℝ) < 10 by norm_num)
    linarith
  have hlog0 : 0 ≤ Real.log 10 := Real.log_nonneg (by norm_num)
  have habs : 0 ≤ |x - y| := abs_nonneg _
  have hfb := fbFun_lip x y
  have hm := mFun_lip x y
  have hfb9 : |fbFun x - fbFun y| ≤ 9 * |x - y| :=
    le_trans hfb (mul_le_mul_of_nonneg_right hlog9 habs)
  rw [indicator_decomp x, indicator_decomp y]
  dsimp only
  refine ⟨?_, ?_, ?_⟩
  · calc |mFun x * (1 - fbFun x) - mFun y * (1 - fbFun y)|
        ≤ |1 - fbFun x - (1 - fbFun y)| + |mFun x - mFun y| :=
          mul_diff_le (abs_mFun_le_one x) (abs_one_sub_fbFun_le_one y)
      _ = |fbFun y - fbFun x| + |mFun x - mFun y| := by
          rw [show (1 : ℝ) - fbFun x - (1 - fbFun y) = fbFun y - fbFun x by ring]
      _ < ε := by
          rw [abs_sub_comm (fbFun y) (fbFun x)]
          linarith
  · calc |1 - mFun x * fbFun x - (1 - mFun y * fbFun y)|
        = |mFun x * fbFun x - mFun y * fbFun y| := by
          rw [show (1 : ℝ) - mFun x * fbFun x - (1 - mFun y * fbFun y) =
            -(mFun x * fbFun x - mFun y * fbFun y) by ring, abs_neg]
      _ ≤ |fbFun x - fbFun y| + |mFun x - mFun y| :=
          mul_diff_le (abs_mFun_le_one x) (abs_fbFun_le_one y)
      _ < ε := by linarith
  · calc |mFun x * fbFun x - mFun y * fbFun y|
        ≤ |fbFun x - fbFun y| + |mFun x - mFun y| :=
          mul_diff_le (abs_mFun_le_one x) (abs_fbFun_le_one y)
      _ < ε := by linarith

/-- C6 witness: the continuity statement instantiated at `ε = 1`. -/
theorem colorFromPH_continuous_witness :
    ∃ δ : ℝ, 0 < δ ∧ ∀ x y : ℝ, |x - y| < δ →
      |(indicatorRgbFromPH x).1 - (indicatorRgbFromPH y).1| < 1 ∧
      |(indicatorRgbFromPH x).2.1 - (indicatorRgbFromPH y).2.1| < 1 ∧
      |(indicatorRgbFromPH x).2.2 - (indicatorRgbFromPH y).2.2| < 1 :=
  colorFromPH_continuous 1 (by norm_num)

/-! ## CSS formatting (C10) -/

theorem jsRound_bounds {x : ℝ} (h0 : 0 ≤ x) (h1 : x ≤ 1) :
    0 ≤ jsRound (255 * x) ∧ jsRound (255 * x) ≤ 255 := by
  unfold jsRound
  constructor
  · apply Int.le_floor.mpr
    push_cast
    linarith
  · have hlt : ⌊(255 : ℝ) * x + 1 / 2⌋ < 256 := by
      apply Int.floor_lt.mpr
      push_cast
      linarith
    omega

/-- C10: on channel values in `[0, 1]` the formatter returns the string
`"rgb(R, G, B)"` with `R = round(255·r)`, `G = round(255·g)`,
`B = round(255·b)` (JavaScript rounding, i.e. `⌊·+1/2⌋`), each an integer
in `[0, 255]`. -/
theorem rgbToCss_spec (r g b : ℝ)
    (hr0 : 0 ≤ r) (hr1 : r ≤ 1) (hg0 : 0 ≤ g) (hg1 : g ≤ 1) (hb0 : 0 ≤ b) (hb1 : b ≤ 1) :
    rgbToCss (r, g, b) =
      "rgb(" ++ toString (jsRound (255 * r)) ++ ", " ++ toString (jsRound (255 * g)) ++
        ", " ++ toString (jsRound (255 * b)) ++ ")" ∧
    (0 ≤ jsRound (255 * r) ∧ jsRound (255 * r) ≤ 255) ∧
    (0 ≤ jsRound (255 * g) ∧ jsRound (255 * g) ≤ 255) ∧
    (0 ≤ jsRound (255 * b) ∧ jsRound (255 * b) ≤ 255) := by
  refine ⟨?_, jsRound_bounds hr0 hr1, jsRound_bounds hg0 hg1, jsRound_bounds hb0 hb1⟩
  unfold rgbToCss
  dsimp only
  rw [mul_comm r 255, mul_comm g 255, mul_comm b 255]

/-- C10 witness: the formatter contract at the concrete mid-gray triple. -/
theorem rgbToCss_spec_witness :
    rgbToCss (0.5, 0.5, 1) =
      "rgb(" ++ toString (jsRound (255 * 0.5)) ++ ", " ++ toString (jsRound (255 * 0.5)) ++
        ", " ++ toString (jsRound (255 * 1)) ++ ")" ∧
    (0 ≤ jsRound (255 * 0.5) ∧ jsRound (255 * 0.5) ≤ 255) ∧
    (0 ≤ jsRound (255 * 0.5) ∧ jsRound (255 * 0.5) ≤ 255) ∧
    (0 ≤ jsRound (255 * 1) ∧ jsRound (255 * 1) ≤ 255) :=
  rgbToCss_spec 0.5 0.5 1 (by norm_num) (by norm_num) (by norm_num) (by norm_num)
    (by norm_num) (by norm_num)

end Chem
